import Mathlib

set_option maxRecDepth 8192

/-!
# Verification of the neartalk chat server core

Shallow embedding of the neartalk repository (Go) in Lean 4, together with
theorems settling the frozen claims about its specification.

Conventions of the embedding:

* Go strings carrying chat text are modelled as Lean `String` (valid Unicode);
  `strings.ToValidUTF8` is therefore the identity on the model.
* `time.Time` values are modelled as abstract `Nat` timestamps; the RFC 3339
  rendering used for display is modelled by decimal rendering (`natToString`),
  an injective stand-in whose exact text no claim depends on.
* The Unicode NFC normalizer (`golang.org/x/text/unicode/norm`), the grapheme
  segmenter (`github.com/rivo/uniseg`) and the URL-linkifying regex are
  external libraries; they enter the embedding as the three function fields of
  a `TextLibs` parameter.  Theorems that need a property of the segmentation
  state it as an explicit hypothesis, and witnesses instantiate `TextLibs`
  with concrete functions that are correct on the (ASCII) witness inputs.
* Go channels become explicit data: a client's bounded `outgoing` channel is a
  `List String` together with the capacity check of a non-blocking send, a
  room's `incoming` channel is a `List msg`, and a send on the `quit` channel
  is a `Bool` in the result of the registry operation that performs it.
* Go pointer identity for `*client` is modelled by a numeric `id` field that
  is allocated freshly on admission.
-/

namespace Neartalk

/-! ## Decimal rendering (fmt.Sprintf "%d" and timestamp stand-in) -/

/-- Decimal digits of `n`, most significant first, by repeated division;
`fuel` bounds the recursion (callers pass `fuel := n`, which suffices). -/
def natToDigitsAux : Nat → Nat → List Char
  | 0, _ => []
  | _ + 1, 0 => []
  | fuel + 1, n + 1 =>
    natToDigitsAux fuel ((n + 1) / 10) ++ [Nat.digitChar ((n + 1) % 10)]

/-- Decimal rendering of a natural number; models `fmt.Sprintf "%d"` (and
stands in for the RFC 3339 rendering of the abstract timestamps). -/
def natToString (n : Nat) : String :=
  if n = 0 then "0" else String.mk (natToDigitsAux n n)

/-- Value of a list of decimal digit characters; used to prove `natToString`
injective. -/
def parseDigits (l : List Char) : Nat :=
  l.foldl (fun acc c => acc * 10 + (c.toNat - 48)) 0

/-! ## Go standard-library text helpers -/

/-- Go `unicode.IsSpace`: the White_Space property, an explicit finite set of
code points. -/
def isSpaceGo (c : Char) : Bool :=
  decide (c = ' ' ∨ (Char.ofNat 9 ≤ c ∧ c ≤ Char.ofNat 13) ∨ c = Char.ofNat 0x85 ∨
    c = Char.ofNat 0xA0 ∨ c = Char.ofNat 0x1680 ∨
    (Char.ofNat 0x2000 ≤ c ∧ c ≤ Char.ofNat 0x200A) ∨ c = Char.ofNat 0x2028 ∨
    c = Char.ofNat 0x2029 ∨ c = Char.ofNat 0x202F ∨ c = Char.ofNat 0x205F ∨
    c = Char.ofNat 0x3000)

/-- Go `strings.TrimSpace`: drop leading and trailing white space. -/
def trimSpace (s : String) : String :=
  String.mk (((s.data.dropWhile isSpaceGo).reverse.dropWhile isSpaceGo).reverse)

/-- Go `strings.ToValidUTF8(s, "�")`.  The model represents wire text as
`String`, which is always valid Unicode, so this is the identity here. -/
def toValidUTF8 (s : String) : String := s

/-- One character of Go `html.EscapeString`: the five HTML special characters
are replaced by entities, everything else is kept.  `Char.ofNat 39` is the
apostrophe and `Char.ofNat 34` the double quote. -/
def htmlEscapeChar (c : Char) : String :=
  if c = '&' then "&amp;"
  else if c = Char.ofNat 39 then "&#39;"
  else if c = '<' then "&lt;"
  else if c = '>' then "&gt;"
  else if c = Char.ofNat 34 then "&#34;"
  else String.mk [c]

/-- Go `html.EscapeString`: each character escaped independently
(`strings.NewReplacer` with five single-character patterns). -/
def htmlEscapeString (s : String) : String :=
  String.join (s.data.map htmlEscapeChar)

/-- Go `strings.Split(s, sep)` for non-empty `sep`, on character lists.
`acc` holds the current field reversed; `fuel` bounds recursion (callers pass
the length of the input plus one, which suffices since every step either
consumes fuel on a character or on a non-empty separator). -/
def splitGoAux (sep : List Char) : Nat → List Char → List Char → List (List Char)
  | _, acc, [] => [acc.reverse]
  | 0, acc, rest => [acc.reverse ++ rest]
  | fuel + 1, acc, c :: cs =>
    if sep.isPrefixOf (c :: cs) ∧ sep ≠ [] then
      acc.reverse :: splitGoAux sep fuel [] (List.drop sep.length (c :: cs))
    else
      splitGoAux sep fuel (c :: acc) cs

/-- Go `strings.Split` for a non-empty separator.  In particular
`splitGo "" sep = [""]`: splitting the empty string yields a one-element
list, exactly as in Go. -/
def splitGo (s sep : String) : List String :=
  (splitGoAux sep.data (s.data.length + 1) [] s.data).map String.mk

/-! ## External text libraries as parameters -/

/-- The three text transformations the source takes from external libraries:
`nfc` models `norm.NFC.String`, `graphemes` models iterating
`uniseg.NewGraphemes` (the list of grapheme clusters, in order), and
`linkify` models `urlRe.ReplaceAllStringFunc` with the anchor-wrapping
replacement.  They are parameters of the embedding; no claim depends on their
internals. -/
structure TextLibs where
  nfc : String → String
  graphemes : String → List String
  linkify : String → String

/-- A concrete `TextLibs` used by witnesses, correct for the ASCII inputs they
evaluate: NFC is the identity on ASCII, each ASCII scalar (outside CR LF
pairs) is its own grapheme cluster, and inputs without URLs are left alone by
the linkifier. -/
def asciiLibs : TextLibs where
  nfc := id
  graphemes := fun s => s.data.map (fun ch => String.mk [ch])
  linkify := id

/-! ## Constants (chat.go / webui.go) -/

/-- `clientMsgBuffer`: capacity of a client's outgoing channel. -/
def clientMsgBuffer : Nat := 16

/-- `serverMsgBuffer`: capacity of a room's incoming channel (the model keeps
the queue as an unbounded list; no claim concerns its fullness). -/
def serverMsgBuffer : Nat := 20

/-- `maxNickLen`: maximum nickname length in grapheme clusters. -/
def maxNickLen : Nat := 30

/-- `maxMsgTextLen`: maximum message length in grapheme clusters. -/
def maxMsgTextLen : Nat := 512

/-- `clearInputFieldMsg`: payload appended to the author's copy of a chat
message to reset the input field. -/
def clearInputFieldMsg : String :=
  "<input name=\"message\" id=\"message-input\" type=\"text\" />"

/-! ## Sanitization and rendering (webui.go) -/

/-- `sanitizeNick`: repair UTF-8, trim white space, NFC-normalize, truncate to
`maxNickLen` grapheme clusters (the loop `nick += g.Str()` is the join of the
first `maxNickLen` clusters), then HTML-escape. -/
def sanitizeNick (L : TextLibs) (nick : String) : String :=
  let n1 := L.nfc (trimSpace (toValidUTF8 nick))
  let n2 := String.join ((L.graphemes n1).take maxNickLen)
  htmlEscapeString n2

/-- `renderMsgText`: repair UTF-8, trim white space, truncate to
`maxMsgTextLen` grapheme clusters (the builder loop writes the first
`maxMsgTextLen` clusters), HTML-escape, then linkify URLs. -/
def renderMsgText (L : TextLibs) (text : String) : String :=
  let t1 := trimSpace (toValidUTF8 text)
  let t2 := String.join ((L.graphemes t1).take maxMsgTextLen)
  L.linkify (htmlEscapeString t2)

/-- `isMsgTextValid`. -/
def isMsgTextValid (s : String) : Bool := s != ""

/-- `msg`: a message passed around the server.  `authorId` models the
`*client` author pointer (`none` = message from the server), `when` the
send time, `raw` a pre-rendered payload. -/
structure msg where
  nick : String
  text : String
  authorId : Option Nat
  when : Nat
  raw : String
deriving DecidableEq

/-- `createChatMsg`: render a user message into the author's HTML and
everyone else's HTML; two empty strings if the text is invalid. -/
def createChatMsg (L : TextLibs) (m : msg) : String × String :=
  let sanitizedMsgText := renderMsgText L m.text
  if ! isMsgTextValid sanitizedMsgText then ("", "")
  else
    let ts := natToString m.when
    (("<tbody id=\"message-table-tbody\" hx-swap-oob=\"beforeend\">\n\t\t\t<tr><td>" ++
        ts ++ "</td><td class=\"my-nick\">" ++ m.nick ++ "</td><td class=\"my-msg\">" ++
        sanitizedMsgText ++ "</td></tr>\n\t\t</tbody>"),
      ("<tbody id=\"message-table-tbody\" hx-swap-oob=\"beforeend\">\n\t\t\t<tr><td>" ++
        ts ++ "</td><td>" ++ m.nick ++ "</td><td>" ++ sanitizedMsgText ++
        "</td></tr>\n\t\t</tbody>"))

/-- `createSpecialMsg`: a server message with a CSS class; `"notif"` messages
carry a timestamp (`now` models the `time.Now()` call). -/
def createSpecialMsg (now : Nat) (text cls : String) : String :=
  let ts := if cls = "notif" then natToString now else ""
  "<tbody id=\"message-table-tbody\" hx-swap-oob=\"beforeend\">\n\t\t\t<tr class=\"special-msg\"><td>" ++
    ts ++ "</td><td></td><td class=\"" ++ cls ++ "\">" ++ htmlEscapeString text ++
    "</td></tr>\n\t\t</tbody>"

/-- `createUserListMsg`: the user-list replacement payload. -/
def createUserListMsg (nicks : List String) : String :=
  "<div id=\"users-list\">" ++
    String.join (nicks.map (fun n => "<p>" ++ n ++ "</p>")) ++
    "</div>" ++ "<p id=\"users-header-p\" class=\"bold\">Users (" ++
    natToString nicks.length ++ ")</p>"

/-! ## Clients and rooms (chat.go) -/

/-- `client`: nickname plus bounded outgoing queue.  `id` models the Go
pointer identity of the `*client`; `closeSlow` is represented by the `Bool`
returned from `client.sendText`. -/
structure client where
  id : Nat
  nick : String
  outgoing : List String
deriving DecidableEq

/-- `client.sendText`: non-blocking send on the bounded outgoing channel.
If the queue has free space the payload is appended (`false` = `closeSlow`
not invoked); if it is full the payload is dropped, the queue is unchanged,
and `closeSlow` is invoked (`true`). -/
def client.sendText (c : client) (s : String) : client × Bool :=
  if c.outgoing.length < clientMsgBuffer then
    ({ c with outgoing := c.outgoing ++ [s] }, false)
  else
    (c, true)

/-- `chatRoom` state: members, last-activity timestamp, and the incoming
message queue. -/
structure chatRoom where
  clients : List client
  whenLastMsg : Nat
  incoming : List msg
deriving DecidableEq

/-- `chatRoom.nickInUse`: whether some member currently holds `nick`
(case-sensitive exact match; the loop over `cr.clients`). -/
def nickInUse (clients : List client) (nick : String) : Bool :=
  clients.any (fun c => nick == c.nick)

/-- Insertion into a sorted list of strings; building block of the model of
`sort.Strings`. -/
def insertSorted (s : String) : List String → List String
  | [] => [s]
  | t :: ts => if s ≤ t then s :: t :: ts else t :: insertSorted s ts

/-- Model of `sort.Strings`: sort a list of strings. -/
def sortStrings (l : List String) : List String :=
  l.foldr insertSorted []

/-- `chatRoom.nicks`: the nicknames currently in use, sorted alphabetically. -/
def nicksOf (clients : List client) : List String :=
  sortStrings (clients.map (·.nick))

/-- The suffix-searching loop of `chatRoom.getNewNick`: try
`ogNick ++ natToString i`, `ogNick ++ natToString (i+1)`, … until a candidate
is not in use.  `fuel` bounds the recursion; callers pass
`clients.length + 1`, which always suffices (see `getNewNickLoop_spec`). -/
def getNewNickLoop (clients : List client) (ogNick : String) : Nat → Nat → String
  | i, 0 => ogNick ++ natToString i
  | i, fuel + 1 =>
    let nick := ogNick ++ natToString i
    if nickInUse clients nick then getNewNickLoop clients ogNick (i + 1) fuel
    else nick

/-- `chatRoom.getNewNick` given the base name `ogNick` produced by `genNick`:
if the base name is free return it, otherwise append increasing numeric
suffixes starting at 2 until the candidate is free. -/
def getNewNick (clients : List client) (ogNick : String) : String :=
  if nickInUse clients ogNick then
    getNewNickLoop clients ogNick 2 (clients.length + 1)
  else
    ogNick

/-- A fresh client id: one more than the largest id present.  Models the
freshness of the `*client` pointer allocated by `connect`. -/
def freshId (clients : List client) : Nat :=
  (clients.map (·.id)).foldr max 0 + 1

/-! ## Nickname generation (nick.go) -/

/-- Modelled from the spec: the fixed pools of the repository's `data`
package (`data.Adjectives`, `data.Animals`) are not under `src/`; the spec
describes them as fixed pools of words for two-word adjective+animal names,
so representative lowercase word lists stand in for them. -/
def Adjectives : List String := ["happy", "hungry", "quick", "sleepy"]

/-- Modelled from the spec: see `Adjectives`. -/
def Animals : List String := ["cat", "otter", "zebra"]

/-- Models `strings.Title` on the pool words: upper-case every character that
follows a non-letter (the `Bool` records whether the previous character was a
letter). -/
def titleGoAux : Bool → List Char → List Char
  | _, [] => []
  | prevLetter, c :: cs =>
    (if prevLetter then c else c.toUpper) :: titleGoAux c.isAlpha cs

/-- Models `strings.Title`. -/
def titleGo (s : String) : String := String.mk (titleGoAux false s.data)

/-- `strings.ReplaceAll(s, " ", "")`: remove every space. -/
def removeSpaces (s : String) : String :=
  String.mk (s.data.filter (fun c => c != ' '))

/-- `genNick`: one adjective and one animal from the fixed pools, joined with
a space, title-cased, and the space removed.  `rand.Intn len` is modelled by
reducing the adversarially chosen indices `ai`, `bi` modulo the pool sizes. -/
def genNick (ai bi : Nat) : String :=
  let adjective := Adjectives.getD (ai % Adjectives.length) ""
  let animal := Animals.getD (bi % Animals.length) ""
  removeSpaces (titleGo (adjective ++ " " ++ animal))

/-- Following the spec's words, for comparison with `genNick`: a "two-word
adjective+animal name …, rendered in a stylized case" (CamelCase): each word
with its first letter capitalized, concatenated. -/
def upperFirst (s : String) : String :=
  match s.data with
  | [] => ""
  | c :: cs => String.mk (c.toUpper :: cs)

/-- Following the spec's words: see `upperFirst`. -/
def specCamelCase (adjective animal : String) : String :=
  upperFirst adjective ++ upperFirst animal

/-! ## Join/leave payloads (webui.go) -/

/-- `createJoinMsg`. -/
def createJoinMsg (now : Nat) (c : client) (nicks : List String) : msg :=
  { nick := "", text := "", authorId := none, when := now,
    raw := createSpecialMsg now (c.nick ++ " has joined") "notif" ++
      createUserListMsg nicks }

/-- `createLeaveMsg`. -/
def createLeaveMsg (now : Nat) (c : client) (nicks : List String) : msg :=
  { nick := "", text := "", authorId := none, when := now,
    raw := createSpecialMsg now (c.nick ++ " has left") "notif" ++
      createUserListMsg nicks }

/-! ## Room operations (chat.go) -/

/-- `chatRoom.addClient`, with the random base name drawn by `genNick` made
explicit as `base`: allocate a nickname not in use, insert the new client
(fresh id models the fresh pointer), and enqueue the join message carrying
the updated member list. -/
def chatRoom.addClient (cr : chatRoom) (base : String) (now : Nat) : chatRoom :=
  let nick := getNewNick cr.clients base
  let c : client := { id := freshId cr.clients, nick := nick, outgoing := [] }
  let clients' := c :: cr.clients
  { cr with
      clients := clients',
      incoming := cr.incoming ++ [createJoinMsg now c (nicksOf clients')] }

/-- `chatRoom.removeClient`: delete the client; if members remain, enqueue
the leave message carrying the updated member list. -/
def chatRoom.removeClient (cr : chatRoom) (c : client) (now : Nat) : chatRoom :=
  let clients' := cr.clients.filter (fun x => x.id != c.id)
  if clients'.length > 0 then
    { cr with
        clients := clients',
        incoming := cr.incoming ++
          [createLeaveMsg now c (sortStrings (clients'.map (·.nick)))] }
  else
    { cr with clients := clients' }

/-- `chatRoom.numClients`. -/
def chatRoom.numClients (cr : chatRoom) : Nat := cr.clients.length

/-- In-place rename of the author client (`m.author.nick = newNick` through
the pointer): update the first client with the given id. -/
def renameClient : List client → Nat → String → List client
  | [], _, _ => []
  | c :: cs, aid, nk =>
    if c.id = aid then { c with nick := nk } :: cs
    else c :: renameClient cs aid nk

/-- `m.author.sendText s` performed on the membership list: apply the
non-blocking send to the (first) client with the author's id. -/
def sendToClient : List client → Nat → String → List client
  | [], _, _ => []
  | c :: cs, aid, s =>
    if c.id = aid then (c.sendText s).1 :: cs
    else c :: sendToClient cs aid s

/-- `m.author.nick` read through the author pointer. -/
def nickOfAuthor (cr : chatRoom) (aid : Option Nat) : String :=
  match aid with
  | none => ""
  | some a => ((cr.clients.find? (fun c => c.id == a)).map (·.nick)).getD ""

/-- The direct `m.author.sendText payload` call of an error path: updates the
author's queue in the room and records the (recipient, payload) call.
A `none` author is kept as a no-op (in the source a server message always has
`raw ≠ ""` and never reaches these paths). -/
def privateNotice (cr : chatRoom) (aid : Option Nat) (payload : String) :
    chatRoom × List (Nat × String) :=
  match aid with
  | none => (cr, [])
  | some a => ({ cr with clients := sendToClient cr.clients a payload }, [(a, payload)])

/-- Result of `chatRoom.handleMsg`: the updated room, the string for the
author, the string for everyone else, and the list of direct
`m.author.sendText` calls it performed. -/
structure handleResult where
  state : chatRoom
  authorMsg : String
  chatMsg : String
  notices : List (Nat × String)

/-- `chatRoom.handleMsg`.  Pre-rendered messages are returned verbatim.  A
`"/nick "` command (the Go guard `strings.HasPrefix(m.text, "/nick ")` with
byte length `> 6` is, for this all-ASCII prefix, the character-level test
below) sanitizes the argument (`m.text[6:]`, the characters after the
prefix); an empty or in-use result sends a private error notice to the
author and broadcasts nothing, otherwise the author is renamed in place and
the rename notice plus user list is broadcast.  Any other text updates
`whenLastMsg` and is rendered by `createChatMsg`. -/
def chatRoom.handleMsg (cr : chatRoom) (L : TextLibs) (now : Nat) (m : msg) :
    handleResult :=
  if m.raw ≠ "" then
    ⟨cr, m.raw, m.raw, []⟩
  else if m.text.data.take 6 = "/nick ".data ∧ 6 < m.text.data.length then
    let newNick := sanitizeNick L (String.mk (m.text.data.drop 6))
    if newNick = "" then
      let p := privateNotice cr m.authorId (createSpecialMsg now "Nickname cannot be empty" "error")
      ⟨p.1, "", "", p.2⟩
    else if nickInUse cr.clients newNick then
      let p := privateNotice cr m.authorId (createSpecialMsg now "That nickname is already in use" "error")
      ⟨p.1, "", "", p.2⟩
    else
      let oldNick := nickOfAuthor cr m.authorId
      let clients' :=
        match m.authorId with
        | none => cr.clients
        | some a => renameClient cr.clients a newNick
      let cr' := { cr with clients := clients' }
      let s := createSpecialMsg now (oldNick ++ " is now known as " ++ newNick) "notif" ++
        createUserListMsg (nicksOf cr'.clients)
      ⟨cr', s, s, []⟩
  else
    let cr' := { cr with whenLastMsg := m.when }
    let pair := createChatMsg L m
    ⟨cr', pair.1, pair.2, []⟩

/-- The broadcast loop of `chatRoom.start`: every member receives the payload
by a non-blocking send; the author receives their variant with the
input-reset instruction appended.  Each member's outcome depends only on
that member's own queue. -/
def chatRoom.broadcast (cr : chatRoom) (authorId : Option Nat)
    (authorMsg chatMsg : String) : chatRoom :=
  { cr with
      clients := cr.clients.map (fun c =>
        if authorId = some c.id then (c.sendText (authorMsg ++ clearInputFieldMsg)).1
        else (c.sendText chatMsg).1) }

/-- One iteration of the `chatRoom.start` pipeline on a dequeued message:
handle it, and if the broadcast string is empty skip the broadcast
(`continue`), otherwise deliver to every member.  The `time.Now()` of the
notice paths is modelled by the message's own timestamp. -/
def roomStep (L : TextLibs) (cr : chatRoom) (m : msg) : chatRoom :=
  let r := cr.handleMsg L m.when m
  if r.chatMsg = "" then r.state
  else r.state.broadcast m.authorId r.authorMsg r.chatMsg

/-! ## The room registry (chatServer, chat.go) -/

/-- `chatServer`: the registry mapping bucket keys (IP strings) to rooms.
The Go map is modelled as an association list with unique keys. -/
structure chatServer where
  rooms : List (String × chatRoom)

/-- Registry lookup (`cs.rooms[ip]`). -/
def chatServer.lookupRoom (cs : chatServer) (ip : String) : Option chatRoom :=
  (cs.rooms.find? (fun p => p.1 == ip)).map (·.2)

/-- `chatServer.removeClient`: delegate removal to the room; if the room is
now empty, delete its registry entry and signal its pipeline to stop (the
returned `Bool` is the send on the room's `quit` channel).  An unknown bucket
key is a logged no-op. -/
def chatServer.removeClient (cs : chatServer) (ip : String) (c : client)
    (now : Nat) : chatServer × Bool :=
  match cs.lookupRoom ip with
  | none => (cs, false)
  | some room =>
    let room' := room.removeClient c now
    if room'.numClients = 0 then
      ({ rooms := cs.rooms.filter (fun p => p.1 != ip) }, true)
    else
      ({ rooms := cs.rooms.map (fun p => if p.1 == ip then (p.1, room') else p) }, false)

/-- The per-room data written by `chatServer.adminDataHandler`: bucket key,
member count, last-activity timestamp, one triple per registry entry. -/
def chatServer.stats (cs : chatServer) : List (String × Nat × Nat) :=
  cs.rooms.map (fun p => (p.1, p.2.numClients, p.2.whenLastMsg))

/-! ## Bucket-key derivation (chat.go getIPString) -/

/-- An HTTP request as `getIPString` sees it: `xForwardedFor` is
`r.Header.Get("X-Forwarded-For")`, which is the empty string when the header
is absent; `remoteAddr` is `r.RemoteAddr`. -/
structure httpRequest where
  xForwardedFor : String
  remoteAddr : String

/-- `getIPString`.  The `else` branch (`net.SplitHostPort` on `r.RemoteAddr`,
then collapsing loopback/private addresses to `"lan"`) is passed in as
`fallback`: as the theorems show, `strings.Split` never returns an empty
list, so for no request and no fallback behaviour is that branch ever
evaluated. -/
def getIPString (fallback : String → String) (r : httpRequest) : String :=
  let forwardedIPs := splitGo r.xForwardedFor ", "
  if forwardedIPs.length > 0 then
    forwardedIPs.getLastD ""
  else
    fallback r.remoteAddr

/-! ## Room traces for the uniqueness invariant -/

/-- One room-level event of a trace: an admission (with the random base name
drawn by `genNick` made explicit), a user text message submitted by a member
(covering both `/nick` commands and ordinary chat lines), or a departure. -/
inductive roomOp where
  | add (base : String) (now : Nat)
  | user (authorId : Nat) (text : String) (whenSent : Nat)
  | leave (c : client) (now : Nat)

/-- Apply one trace event to a room. -/
def applyOp (L : TextLibs) (cr : chatRoom) : roomOp → chatRoom
  | .add base now => cr.addClient base now
  | .user aid text whenSent =>
    roomStep L cr
      { nick := nickOfAuthor cr (some aid), text := text, authorId := some aid,
        when := whenSent, raw := "" }
  | .leave c now => cr.removeClient c now

/-- The empty room a trace starts from. -/
def emptyRoom : chatRoom := { clients := [], whenLastMsg := 0, incoming := [] }

/-- Run a trace of room events from the empty room. -/
def runRoom (L : TextLibs) (ops : List roomOp) : chatRoom :=
  ops.foldl (applyOp L) emptyRoom

/-- The room invariant: pairwise-distinct nicknames and pairwise-distinct
client identities. -/
def roomInv (cr : chatRoom) : Prop :=
  (cr.clients.map (·.nick)).Nodup ∧ (cr.clients.map (·.id)).Nodup

/-! ## Concrete instances evaluated by witnesses and counterexamples -/

/-- A member with an empty outgoing queue. -/
def wClientA : client := { id := 1, nick := "HappyCat", outgoing := [] }

/-- A second member. -/
def wClientB : client := { id := 2, nick := "QuickOtter", outgoing := [] }

/-- A member whose outgoing queue is full (16 queued payloads). -/
def wClientFull : client :=
  { id := 3, nick := "SleepyZebra", outgoing := List.replicate 16 "x" }

/-- A three-member room, one member of which has a full queue. -/
def wRoom : chatRoom :=
  { clients := [wClientA, wClientB, wClientFull], whenLastMsg := 0, incoming := [] }

/-- A single-member room sitting in a registry. -/
def wRoomSingle : chatRoom :=
  { clients := [wClientA], whenLastMsg := 7, incoming := [] }

/-- A registry holding one room under bucket key `"1.2.3.4"`. -/
def wServer : chatServer := { rooms := [("1.2.3.4", wRoomSingle)] }

/-- A rename command whose argument sanitizes to the empty string. -/
def wMsgNickEmpty : msg :=
  { nick := "HappyCat", text := "/nick    ", authorId := some 1, when := 5, raw := "" }

/-- A rename command whose argument sanitizes to the author's own nickname. -/
def wMsgSelf : msg :=
  { nick := "HappyCat", text := "/nick HappyCat", authorId := some 1, when := 5, raw := "" }

/-- A chat message whose content normalizes to the empty string. -/
def wMsgBlank : msg :=
  { nick := "HappyCat", text := " ", authorId := some 1, when := 5, raw := "" }

/-- An ordinary chat message. -/
def wMsgHello : msg :=
  { nick := "HappyCat", text := "hello", authorId := some 1, when := 11, raw := "" }

/-- A 1000-character message text. -/
def wMsg1000 : String := String.mk (List.replicate 1000 'a')

/-- An in-use set that collides with `genNick 0 0 = "HappyCat"` and with its
first numeric suffix. -/
def wNickUsed : List client :=
  [{ id := 1, nick := "HappyCat", outgoing := [] },
   { id := 2, nick := "HappyCat2", outgoing := [] }]

/-! ## Helper lemmas: decimal rendering is injective -/

theorem parseDigits_append_one (l : List Char) (c : Char) :
    parseDigits (l ++ [c]) = parseDigits l * 10 + (c.toNat - 48) := by
  simp [parseDigits, List.foldl_append]

theorem digitChar_toNat_sub : ∀ d < 10, (Nat.digitChar d).toNat - 48 = d := by
  decide

theorem parseDigits_natToDigitsAux :
    ∀ fuel n, n ≤ fuel → parseDigits (natToDigitsAux fuel n) = n := by
  intro fuel
  induction fuel with
  | zero =>
    intro n hn
    have : n = 0 := Nat.le_zero.mp hn
    subst this
    rfl
  | succ f ih =>
    intro n hn
    match n with
    | 0 => rfl
    | m + 1 =>
      have hdiv : (m + 1) / 10 ≤ f := by
        have h1 : (m + 1) / 10 < m + 1 := Nat.div_lt_self (Nat.succ_pos m) (by omega)
        omega
      show parseDigits (natToDigitsAux f ((m + 1) / 10) ++ [Nat.digitChar ((m + 1) % 10)]) = m + 1
      rw [parseDigits_append_one, ih _ hdiv,
        digitChar_toNat_sub _ (Nat.mod_lt _ (by omega))]
      have := Nat.div_add_mod (m + 1) 10
      omega

theorem natToString_injective : Function.Injective natToString := by
  intro m n h
  unfold natToString at h
  by_cases hm : m = 0 <;> by_cases hn : n = 0
  · omega
  · rw [if_pos hm, if_neg hn] at h
    have hd : parseDigits (("0" : String).data) = parseDigits (natToDigitsAux n n) :=
      congrArg (fun s => parseDigits s.data) h
    rw [parseDigits_natToDigitsAux n n (Nat.le_refl n)] at hd
    have : (0 : Nat) = n := hd
    omega
  · rw [if_neg hm, if_pos hn] at h
    have hd : parseDigits (natToDigitsAux m m) = parseDigits (("0" : String).data) :=
      congrArg (fun s => parseDigits s.data) h
    rw [parseDigits_natToDigitsAux m m (Nat.le_refl m)] at hd
    have : m = (0 : Nat) := hd
    omega
  · rw [if_neg hm, if_neg hn] at h
    have hd : natToDigitsAux m m = natToDigitsAux n n := congrArg String.data h
    have := congrArg parseDigits hd
    rwa [parseDigits_natToDigitsAux m m (Nat.le_refl m),
      parseDigits_natToDigitsAux n n (Nat.le_refl n)] at this

theorem append_natToString_injective (base : String) :
    Function.Injective (fun j => base ++ natToString j) := by
  intro i j h
  have hd := congrArg String.data h
  simp only [String.data_append] at hd
  have : (natToString i).data = (natToString j).data := List.append_cancel_left hd
  exact natToString_injective (String.ext this)

/-! ## Helper lemmas: `nickInUse` and fresh-nickname existence -/

theorem nickInUse_eq_false_iff (clients : List client) (nick : String) :
    nickInUse clients nick = false ↔ ∀ c ∈ clients, nick ≠ c.nick := by
  simp [nickInUse]

theorem nickInUse_true_of_mem {clients : List client} {c : client}
    (hc : c ∈ clients) : nickInUse clients c.nick = true := by
  simp only [nickInUse, List.any_eq_true]
  exact ⟨c, hc, by simp⟩

/-- Pigeonhole: among any `clients.length + 1` consecutive numeric suffixes
there is one whose suffixed candidate is not in use. -/
theorem exists_free_suffix (clients : List client) (base : String) (i : Nat) :
    ∃ j, i ≤ j ∧ j < i + (clients.length + 1) ∧
      nickInUse clients (base ++ natToString j) = false := by
  by_contra hcon
  push_neg at hcon
  have hall : ∀ k < clients.length + 1,
      (base ++ natToString (i + k)) ∈ clients.map (·.nick) := by
    intro k hk
    have h1 := hcon (i + k) (Nat.le_add_right i k) (by omega)
    have h2 : nickInUse clients (base ++ natToString (i + k)) = true := by
      cases h : nickInUse clients (base ++ natToString (i + k)) with
      | false => exact absurd h h1
      | true => rfl
    simp only [nickInUse, List.any_eq_true, beq_iff_eq] at h2
    obtain ⟨c, hc, hceq⟩ := h2
    exact hceq ▸ List.mem_map_of_mem (·.nick) hc
  have hinj : Function.Injective (fun k => base ++ natToString (i + k)) := by
    intro a b hab
    have := append_natToString_injective base hab
    omega
  have hsub : (Finset.range (clients.length + 1)).image
      (fun k => base ++ natToString (i + k)) ⊆ (clients.map (·.nick)).toFinset := by
    intro x hx
    simp only [Finset.mem_image, Finset.mem_range] at hx
    obtain ⟨k, hk, rfl⟩ := hx
    exact List.mem_toFinset.mpr (hall k hk)
  have hcard1 : ((Finset.range (clients.length + 1)).image
      (fun k => base ++ natToString (i + k))).card = clients.length + 1 := by
    rw [Finset.card_image_of_injective _ hinj, Finset.card_range]
  have hcard2 : (clients.map (·.nick)).toFinset.card ≤ clients.length := by
    have := List.toFinset_card_le (clients.map (·.nick))
    simpa using this
  have := Finset.card_le_card hsub
  omega

/-- The suffix loop returns the first free suffixed candidate, provided some
candidate within its fuel is free. -/
theorem getNewNickLoop_spec (clients : List client) (og : String) :
    ∀ fuel i,
      (∃ j, i ≤ j ∧ j < i + fuel ∧
        nickInUse clients (og ++ natToString j) = false) →
      ∃ j, i ≤ j ∧ nickInUse clients (og ++ natToString j) = false ∧
        getNewNickLoop clients og i fuel = og ++ natToString j ∧
        ∀ k, i ≤ k → k < j → nickInUse clients (og ++ natToString k) = true := by
  intro fuel
  induction fuel with
  | zero =>
    intro i ⟨j, hij, hlt, _⟩
    omega
  | succ f ih =>
    intro i ⟨j, hij, hlt, hfree⟩
    by_cases h : nickInUse clients (og ++ natToString i) = true
    · have hrec : getNewNickLoop clients og i (f + 1) = getNewNickLoop clients og (i + 1) f := by
        simp [getNewNickLoop, h]
      have hne : j ≠ i := by
        intro he
        rw [he] at hfree
        rw [hfree] at h
        exact Bool.false_ne_true h
      obtain ⟨j', h1, h2, h3, h4⟩ := ih (i + 1) ⟨j, by omega, by omega, hfree⟩
      refine ⟨j', by omega, h2, hrec ▸ h3, ?_⟩
      intro k hk1 hk2
      by_cases hki : k = i
      · exact hki ▸ h
      · exact h4 k (by omega) hk2
    · have h0 : nickInUse clients (og ++ natToString i) = false := by
        cases hx : nickInUse clients (og ++ natToString i) with
        | false => rfl
        | true => exact absurd hx h
      refine ⟨i, Nat.le_refl i, h0, ?_, fun k hk1 hk2 => by omega⟩
      simp [getNewNickLoop, h0]

/-- `getNewNick` never returns a nickname already in use. -/
theorem getNewNick_fresh (clients : List client) (base : String) :
    nickInUse clients (getNewNick clients base) = false := by
  unfold getNewNick
  by_cases h : nickInUse clients base = true
  · rw [if_pos h]
    obtain ⟨j, hij, hlt, hfree⟩ := exists_free_suffix clients base 2
    obtain ⟨j', _, hfree', heq, _⟩ :=
      getNewNickLoop_spec clients base (clients.length + 1) 2 ⟨j, hij, hlt, hfree⟩
    rw [heq]
    exact hfree'
  · rw [if_neg h]
    cases hx : nickInUse clients base with
    | false => rfl
    | true => exact absurd hx h

theorem le_foldr_max_of_mem : ∀ (l : List Nat) (x : Nat), x ∈ l → x ≤ l.foldr max 0 := by
  intro l
  induction l with
  | nil => intro x hx; simp at hx
  | cons a as ih =>
    intro x hx
    simp only [List.foldr_cons]
    rcases List.mem_cons.mp hx with h | h
    · omega
    · have := ih x h
      omega

/-- `freshId` is not the id of any current member. -/
theorem freshId_not_mem (clients : List client) :
    freshId clients ∉ clients.map (·.id) := by
  intro hmem
  have := le_foldr_max_of_mem (clients.map (·.id)) _ hmem
  simp only [freshId] at this
  omega

/-! ## Helper lemmas: `String.join` -/

theorem foldl_append_hoist :
    ∀ (l : List String) (a : String),
      l.foldl (fun r s => r ++ s) a = a ++ l.foldl (fun r s => r ++ s) "" := by
  intro l
  induction l with
  | nil => intro a; simp
  | cons s ss ih =>
    intro a
    simp only [List.foldl_cons]
    rw [ih (a ++ s), ih ("" ++ s), String.empty_append, String.append_assoc]

theorem join_cons (s : String) (l : List String) :
    String.join (s :: l) = s ++ String.join l := by
  show (s :: l).foldl (fun r s => r ++ s) "" = s ++ l.foldl (fun r s => r ++ s) ""
  simp only [List.foldl_cons, String.empty_append]
  exact foldl_append_hoist l s

theorem join_append (l1 l2 : List String) :
    String.join (l1 ++ l2) = String.join l1 ++ String.join l2 := by
  induction l1 with
  | nil =>
    show String.join l2 = String.join [] ++ String.join l2
    rw [show String.join [] = "" from rfl, String.empty_append]
  | cons s ss ih =>
    simp only [List.cons_append, join_cons, ih, String.append_assoc]

theorem join_take_drop (n : Nat) (l : List String) :
    String.join (l.take n) ++ String.join (l.drop n) = String.join l := by
  rw [← join_append, List.take_append_drop]

theorem join_singletons (s : String) :
    String.join (s.data.map (fun ch => String.mk [ch])) = s := by
  apply String.ext
  induction s with
  | mk l =>
    induction l with
    | nil => rfl
    | cons c cs ih =>
      show (String.join (String.mk [c] :: cs.map (fun ch => String.mk [ch]))).data = c :: cs
      rw [join_cons]
      simp only [String.data_append]
      exact congrArg (fun t => c :: t) ih

/-! ## Helper lemmas: state preservation of the delivery paths -/

theorem sendText_fst_nick (c : client) (s : String) : (c.sendText s).1.nick = c.nick := by
  unfold client.sendText
  split <;> rfl

theorem sendText_fst_id (c : client) (s : String) : (c.sendText s).1.id = c.id := by
  unfold client.sendText
  split <;> rfl

theorem sendToClient_map_nick (l : List client) (a : Nat) (s : String) :
    (sendToClient l a s).map (·.nick) = l.map (·.nick) := by
  induction l with
  | nil => rfl
  | cons c cs ih =>
    unfold sendToClient
    split
    · simp only [List.map_cons]
      rw [sendText_fst_nick]
    · simp only [List.map_cons, ih]

theorem sendToClient_map_id (l : List client) (a : Nat) (s : String) :
    (sendToClient l a s).map (·.id) = l.map (·.id) := by
  induction l with
  | nil => rfl
  | cons c cs ih =>
    unfold sendToClient
    split
    · simp only [List.map_cons]
      rw [sendText_fst_id]
    · simp only [List.map_cons, ih]

theorem sendToClient_mem_of_ne {l : List client} {c : client} (a : Nat) (s : String)
    (hc : c ∈ l) (hne : c.id ≠ a) : c ∈ sendToClient l a s := by
  induction l with
  | nil => simp at hc
  | cons d ds ih =>
    unfold sendToClient
    rcases List.mem_cons.mp hc with rfl | hmem
    · rw [if_neg hne]
      exact List.mem_cons_self _ _
    · split
      · exact List.mem_cons_of_mem _ hmem
      · exact List.mem_cons_of_mem _ (ih hmem)

theorem renameClient_map_id (l : List client) (a : Nat) (nk : String) :
    (renameClient l a nk).map (·.id) = l.map (·.id) := by
  induction l with
  | nil => rfl
  | cons c cs ih =>
    unfold renameClient
    split <;> simp only [List.map_cons, ih]

theorem mem_nick_renameClient {x : String} :
    ∀ (l : List client) (a : Nat) (nk : String),
      x ∈ (renameClient l a nk).map (·.nick) → x = nk ∨ x ∈ l.map (·.nick) := by
  intro l
  induction l with
  | nil => intro a nk h; simp [renameClient] at h
  | cons c cs ih =>
    intro a nk h
    unfold renameClient at h
    split at h
    · simp only [List.map_cons, List.mem_cons] at h
      rcases h with h | h
      · exact Or.inl h
      · exact Or.inr (by simp [h])
    · simp only [List.map_cons, List.mem_cons] at h
      rcases h with h | h
      · exact Or.inr (by simp [h])
      · rcases ih a nk h with h' | h'
        · exact Or.inl h'
        · exact Or.inr (List.mem_cons_of_mem _ h')

theorem renameClient_nick_nodup :
    ∀ (l : List client) (a : Nat) (nk : String),
      nickInUse l nk = false → (l.map (·.nick)).Nodup →
      ((renameClient l a nk).map (·.nick)).Nodup := by
  intro l
  induction l with
  | nil => intro a nk _ _; simp [renameClient]
  | cons c cs ih =>
    intro a nk hni hnd
    have hni' : nickInUse cs nk = false := by
      simp only [nickInUse, List.any_cons, Bool.or_eq_false_iff] at hni
      exact hni.2
    have hnkc : nk ≠ c.nick := by
      simp only [nickInUse, List.any_cons, Bool.or_eq_false_iff, beq_eq_false_iff_ne, ne_eq] at hni
      exact hni.1
    simp only [List.map_cons, List.nodup_cons] at hnd
    unfold renameClient
    split
    · simp only [List.map_cons, List.nodup_cons]
      constructor
      · intro hmem
        rcases (nickInUse_eq_false_iff cs nk).mp hni' with hforall
        obtain ⟨d, hd, hdeq⟩ := List.mem_map.mp hmem
        exact hforall d hd hdeq.symm
      · exact hnd.2
    · simp only [List.map_cons, List.nodup_cons]
      constructor
      · intro hmem
        rcases mem_nick_renameClient cs a nk hmem with h | h
        · exact hnkc h.symm
        · exact hnd.1 h
      · exact ih a nk hni' hnd.2

theorem broadcast_map_nick (cr : chatRoom) (aid : Option Nat) (aMsg cMsg : String) :
    ((cr.broadcast aid aMsg cMsg).clients).map (·.nick) = cr.clients.map (·.nick) := by
  simp only [chatRoom.broadcast, List.map_map]
  apply List.map_congr_left
  intro c _
  simp only [Function.comp_apply]
  split <;> rw [sendText_fst_nick]

theorem broadcast_map_id (cr : chatRoom) (aid : Option Nat) (aMsg cMsg : String) :
    ((cr.broadcast aid aMsg cMsg).clients).map (·.id) = cr.clients.map (·.id) := by
  simp only [chatRoom.broadcast, List.map_map]
  apply List.map_congr_left
  intro c _
  simp only [Function.comp_apply]
  split <;> rw [sendText_fst_id]

/-- Everything `handleMsg` does to the membership list: either it leaves the
nickname and id lists unchanged (raw, error and regular paths), or — on a
successful rename only — it renames one client to a nickname that was not in
use. -/
theorem handleMsg_clients_cases (cr : chatRoom) (L : TextLibs) (now : Nat) (m : msg) :
    ((cr.handleMsg L now m).state.clients.map (·.nick) = cr.clients.map (·.nick) ∧
      (cr.handleMsg L now m).state.clients.map (·.id) = cr.clients.map (·.id)) ∨
    (∃ a nk, nickInUse cr.clients nk = false ∧
      (cr.handleMsg L now m).state.clients = renameClient cr.clients a nk) := by
  unfold chatRoom.handleMsg
  by_cases h1 : m.raw ≠ ""
  · rw [if_pos h1]
    left
    exact ⟨rfl, rfl⟩
  · rw [if_neg h1]
    by_cases h2 : m.text.data.take 6 = "/nick ".data ∧ 6 < m.text.data.length
    · rw [if_pos h2]
      dsimp only
      by_cases h3 : sanitizeNick L (String.mk (m.text.data.drop 6)) = ""
      · rw [if_pos h3]
        cases hA : m.authorId with
        | none => left; exact ⟨rfl, rfl⟩
        | some a =>
          left
          simp only [privateNotice, hA]
          exact ⟨sendToClient_map_nick _ _ _, sendToClient_map_id _ _ _⟩
      · rw [if_neg h3]
        by_cases h4 : nickInUse cr.clients (sanitizeNick L (String.mk (m.text.data.drop 6))) = true
        · rw [if_pos h4]
          cases hA : m.authorId with
          | none => left; exact ⟨rfl, rfl⟩
          | some a =>
            left
            simp only [privateNotice, hA]
            exact ⟨sendToClient_map_nick _ _ _, sendToClient_map_id _ _ _⟩
        · rw [if_neg h4]
          cases hA : m.authorId with
          | none => left; exact ⟨rfl, rfl⟩
          | some a =>
            right
            refine ⟨a, sanitizeNick L (String.mk (m.text.data.drop 6)),
              Bool.not_eq_true _ ▸ h4, ?_⟩
            simp only [hA]
    · rw [if_neg h2]
      left
      exact ⟨rfl, rfl⟩

/-- One pipeline iteration preserves the room invariant. -/
theorem roomStep_inv (L : TextLibs) (cr : chatRoom) (m : msg) :
    roomInv cr → roomInv (roomStep L cr m) := by
  intro hinv
  have hstate : roomInv (cr.handleMsg L m.when m).state := by
    rcases handleMsg_clients_cases cr L m.when m with ⟨hn, hi⟩ | ⟨a, nk, hfree, hcl⟩
    · exact ⟨hn ▸ hinv.1, hi ▸ hinv.2⟩
    · constructor
      · rw [hcl]
        exact renameClient_nick_nodup cr.clients a nk hfree hinv.1
      · rw [hcl, renameClient_map_id]
        exact hinv.2
  unfold roomStep
  dsimp only
  split
  · exact hstate
  · constructor
    · rw [broadcast_map_nick]
      exact hstate.1
    · rw [broadcast_map_id]
      exact hstate.2

/-- Admission preserves the room invariant: the allocated nickname is fresh
and the new client id is fresh. -/
theorem addClient_inv (cr : chatRoom) (base : String) (now : Nat) :
    roomInv cr → roomInv (cr.addClient base now) := by
  intro hinv
  unfold chatRoom.addClient
  constructor
  · simp only [List.map_cons, List.nodup_cons]
    refine ⟨?_, hinv.1⟩
    intro hmem
    have := (nickInUse_eq_false_iff cr.clients (getNewNick cr.clients base)).mp
      (getNewNick_fresh cr.clients base)
    obtain ⟨c, hc, hceq⟩ := List.mem_map.mp hmem
    exact this c hc hceq.symm
  · simp only [List.map_cons, List.nodup_cons]
    exact ⟨freshId_not_mem cr.clients, hinv.2⟩

/-- Departure preserves the room invariant. -/
theorem removeClient_inv (cr : chatRoom) (c : client) (now : Nat) :
    roomInv cr → roomInv (cr.removeClient c now) := by
  intro hinv
  have hsub : List.Sublist ((cr.clients.filter (fun x => x.id != c.id)).map (·.nick))
      (cr.clients.map (·.nick)) := (List.filter_sublist _).map _
  have hsub2 : List.Sublist ((cr.clients.filter (fun x => x.id != c.id)).map (·.id))
      (cr.clients.map (·.id)) := (List.filter_sublist _).map _
  unfold chatRoom.removeClient
  dsimp only
  split
  · exact ⟨hinv.1.sublist hsub, hinv.2.sublist hsub2⟩
  · exact ⟨hinv.1.sublist hsub, hinv.2.sublist hsub2⟩

/-- Every trace event preserves the room invariant. -/
theorem applyOp_inv (L : TextLibs) (cr : chatRoom) (op : roomOp) :
    roomInv cr → roomInv (applyOp L cr op) := by
  intro hinv
  cases op with
  | add base now => exact addClient_inv cr base now hinv
  | user aid text whenSent => exact roomStep_inv L cr _ hinv
  | leave c now => exact removeClient_inv cr c now hinv

theorem foldl_applyOp_inv (L : TextLibs) :
    ∀ (ops : List roomOp) (cr : chatRoom),
      roomInv cr → roomInv (ops.foldl (applyOp L) cr) := by
  intro ops
  induction ops with
  | nil => intro cr h; exact h
  | cons op rest ih =>
    intro cr h
    exact ih _ (applyOp_inv L cr op h)

theorem getD_mem {α : Type} {l : List α} {n : Nat} (h : n < l.length) (d : α) :
    l.getD n d ∈ l := by
  rw [List.getD_eq_getElem?_getD, List.getElem?_eq_getElem h]
  exact List.getElem_mem h

/-! ## Claim theorems -/

/-- C1.  Nickname uniqueness invariant: for every text-library instantiation
and every sequence of room events (admissions with arbitrary base names,
user messages — including `/nick` rename commands — and departures) applied
to an initially empty room, no two simultaneously-present members ever hold
an identical nickname (the nickname list is pairwise distinct under
case-sensitive exact string equality). -/
theorem c1_nickname_uniqueness (L : TextLibs) (ops : List roomOp) :
    ((runRoom L ops).clients.map (·.nick)).Nodup :=
  (foldl_applyOp_inv L ops emptyRoom ⟨List.nodup_nil, List.nodup_nil⟩).1

/-- C9.  Nickname allocation: `genNick` composes one adjective and one animal
from the fixed pools in CamelCase (it agrees with the spec-side
`specCamelCase` composition on pool words); `getNewNick` returns the base
name unchanged when it is not in use, otherwise the first candidate
`base ++ suffix` with numeric suffixes increasing from 2 that is not in use;
and the returned name is never in the in-use set. -/
theorem c9_nickname_allocation (clients : List client) (ai bi : Nat) :
    (∃ a ∈ Adjectives, ∃ b ∈ Animals, genNick ai bi = specCamelCase a b) ∧
    nickInUse clients (getNewNick clients (genNick ai bi)) = false ∧
    (nickInUse clients (genNick ai bi) = false →
      getNewNick clients (genNick ai bi) = genNick ai bi) ∧
    (nickInUse clients (genNick ai bi) = true →
      ∃ j, 2 ≤ j ∧
        getNewNick clients (genNick ai bi) = genNick ai bi ++ natToString j ∧
        nickInUse clients (genNick ai bi ++ natToString j) = false ∧
        ∀ k, 2 ≤ k → k < j →
          nickInUse clients (genNick ai bi ++ natToString k) = true) := by
  refine ⟨?_, getNewNick_fresh _ _, ?_, ?_⟩
  · have hcam : ∀ x ∈ Adjectives, ∀ y ∈ Animals,
        removeSpaces (titleGo (x ++ " " ++ y)) = specCamelCase x y := by decide
    have h1 : ai % Adjectives.length < Adjectives.length := Nat.mod_lt _ (by decide)
    have h2 : bi % Animals.length < Animals.length := Nat.mod_lt _ (by decide)
    refine ⟨Adjectives.getD (ai % Adjectives.length) "", getD_mem h1 "",
      Animals.getD (bi % Animals.length) "", getD_mem h2 "", ?_⟩
    exact hcam _ (getD_mem h1 "") _ (getD_mem h2 "")
  · intro h
    unfold getNewNick
    rw [if_neg (by simp [h])]
  · intro h
    unfold getNewNick
    rw [if_pos h]
    obtain ⟨j, hij, hlt, hfree⟩ := exists_free_suffix clients (genNick ai bi) 2
    obtain ⟨j', h1, h2, h3, h4⟩ :=
      getNewNickLoop_spec clients (genNick ai bi) (clients.length + 1) 2
        ⟨j, hij, hlt, hfree⟩
    exact ⟨j', h1, h3, h2, h4⟩

/-- C3.  Non-blocking per-member delivery: the outgoing queue capacity is 16;
`sendText` on a queue with free space appends the payload and does not invoke
`closeSlow`; on a full queue it drops the payload, leaves the queue unchanged
and invokes `closeSlow`; and in a broadcast every non-author member's
delivery depends only on that member's own queue — a member with free space
has the payload enqueued no matter what the other members' queues hold. -/
theorem c3_nonblocking_delivery (c : client) (s : String) (cr : chatRoom)
    (aid : Option Nat) (aMsg cMsg : String) :
    clientMsgBuffer = 16 ∧
    (c.outgoing.length < clientMsgBuffer →
      c.sendText s = ({ c with outgoing := c.outgoing ++ [s] }, false)) ∧
    (clientMsgBuffer ≤ c.outgoing.length → c.sendText s = (c, true)) ∧
    (c ∈ cr.clients → aid ≠ some c.id →
      (c.sendText cMsg).1 ∈ (cr.broadcast aid aMsg cMsg).clients) ∧
    (c ∈ cr.clients → aid ≠ some c.id → c.outgoing.length < clientMsgBuffer →
      { c with outgoing := c.outgoing ++ [cMsg] } ∈
        (cr.broadcast aid aMsg cMsg).clients) := by
  have hsend : ∀ t : String, c.outgoing.length < clientMsgBuffer →
      c.sendText t = ({ c with outgoing := c.outgoing ++ [t] }, false) := by
    intro t h
    unfold client.sendText
    rw [if_pos h]
  have hmem : c ∈ cr.clients → aid ≠ some c.id →
      (c.sendText cMsg).1 ∈ (cr.broadcast aid aMsg cMsg).clients := by
    intro hc hne
    unfold chatRoom.broadcast
    dsimp only
    refine List.mem_map.mpr ⟨c, hc, ?_⟩
    rw [if_neg hne]
  refine ⟨rfl, hsend s, ?_, hmem, ?_⟩
  · intro h
    unfold client.sendText
    rw [if_neg (by omega)]
  · intro hc hne hlen
    have := hmem hc hne
    rwa [hsend cMsg hlen] at this

/-- C2.  Empty-room teardown: if after delegating removal to the room the
room has zero members, `chatServer.removeClient` deletes the registry entry
and sends on the room's quit channel, and a stats/admin snapshot taken on the
resulting registry no longer shows the bucket key. -/
theorem c2_empty_room_teardown (cs : chatServer) (ip : String) (c : client)
    (now : Nat) (room : chatRoom)
    (hfind : cs.lookupRoom ip = some room)
    (hempty : (room.removeClient c now).numClients = 0) :
    (cs.removeClient ip c now).1.lookupRoom ip = none ∧
    (cs.removeClient ip c now).2 = true ∧
    ip ∉ ((cs.removeClient ip c now).1.stats).map (·.1) := by
  have hres : cs.removeClient ip c now =
      ({ rooms := cs.rooms.filter (fun p => p.1 != ip) }, true) := by
    unfold chatServer.removeClient
    rw [hfind]
    dsimp only
    rw [if_pos hempty]
  rw [hres]
  refine ⟨?_, rfl, ?_⟩
  · unfold chatServer.lookupRoom
    rw [List.find?_eq_none.mpr ?_]
    · rfl
    · intro p hp
      have := (List.mem_filter.mp hp).2
      simp only [bne_iff_ne, ne_eq] at this
      simp only [beq_iff_eq]
      exact this
  · intro hmem
    unfold chatServer.stats at hmem
    simp only [List.map_map] at hmem
    obtain ⟨p, hp, hpeq⟩ := List.mem_map.mp hmem
    have := (List.mem_filter.mp hp).2
    simp only [bne_iff_ne, ne_eq] at this
    exact this hpeq

/-- C7 (code bug).  With no `X-Forwarded-For` header (`Header.Get` returns
the empty string) `strings.Split` still yields the one-element list `[""]`,
so the "reverse-proxied" branch runs and `getIPString` returns the empty
string: the fallback that would collapse the loopback peer address
`127.0.0.1:54321` to `"lan"` is dead code, no matter what it computes. -/
theorem c7_bucket_key_bug :
    getIPString (fun _ => "lan")
      { xForwardedFor := "", remoteAddr := "127.0.0.1:54321" } = "" ∧
    ("" : String) ≠ "lan" := by
  constructor
  · rfl
  · decide

/-! ## Helper lemmas: the rejected-rename paths of `handleMsg` -/

theorem handleMsg_empty_nick_case (cr : chatRoom) (L : TextLibs) (now : Nat)
    (m : msg) (a : Nat)
    (hraw : m.raw = "") (hcmd : m.text.data.take 6 = "/nick ".data)
    (hlen : 6 < m.text.data.length) (hA : m.authorId = some a)
    (hempty : sanitizeNick L (String.mk (m.text.data.drop 6)) = "") :
    cr.handleMsg L now m =
      ⟨{ cr with clients := sendToClient cr.clients a (createSpecialMsg now "Nickname cannot be empty" "error") },
        "", "",
        [(a, createSpecialMsg now "Nickname cannot be empty" "error")]⟩ := by
  unfold chatRoom.handleMsg
  rw [if_neg (by simp [hraw]), if_pos ⟨hcmd, hlen⟩]
  dsimp only
  rw [if_pos hempty]
  simp only [privateNotice, hA]

theorem handleMsg_inuse_nick_case (cr : chatRoom) (L : TextLibs) (now : Nat)
    (m : msg) (a : Nat)
    (hraw : m.raw = "") (hcmd : m.text.data.take 6 = "/nick ".data)
    (hlen : 6 < m.text.data.length) (hA : m.authorId = some a)
    (hne : sanitizeNick L (String.mk (m.text.data.drop 6)) ≠ "")
    (huse : nickInUse cr.clients (sanitizeNick L (String.mk (m.text.data.drop 6))) = true) :
    cr.handleMsg L now m =
      ⟨{ cr with clients := sendToClient cr.clients a (createSpecialMsg now "That nickname is already in use" "error") },
        "", "",
        [(a, createSpecialMsg now "That nickname is already in use" "error")]⟩ := by
  unfold chatRoom.handleMsg
  rw [if_neg (by simp [hraw]), if_pos ⟨hcmd, hlen⟩]
  dsimp only
  rw [if_neg hne, if_pos huse]
  simp only [privateNotice, hA]

/-- C4.  Rejected rename is private and atomic: a `"/nick <name>"` message
whose argument sanitizes to the empty string or to a nickname already in use
produces exactly one private error notice addressed to the requesting
client, empty broadcast strings (so the pipeline broadcasts nothing), and
leaves every nickname, every membership id, and every non-author member
untouched. -/
theorem c4_rejected_rename_private (L : TextLibs) (cr : chatRoom) (m : msg) (a : Nat)
    (hraw : m.raw = "") (hcmd : m.text.data.take 6 = "/nick ".data)
    (hlen : 6 < m.text.data.length) (hA : m.authorId = some a)
    (hbad : sanitizeNick L (String.mk (m.text.data.drop 6)) = "" ∨
      nickInUse cr.clients (sanitizeNick L (String.mk (m.text.data.drop 6))) = true) :
    (cr.handleMsg L m.when m).notices =
      [(a, createSpecialMsg m.when
        (if sanitizeNick L (String.mk (m.text.data.drop 6)) = ""
          then "Nickname cannot be empty"
          else "That nickname is already in use") "error")] ∧
    (cr.handleMsg L m.when m).authorMsg = "" ∧
    (cr.handleMsg L m.when m).chatMsg = "" ∧
    (cr.handleMsg L m.when m).state.clients.map (·.nick) = cr.clients.map (·.nick) ∧
    (cr.handleMsg L m.when m).state.clients.map (·.id) = cr.clients.map (·.id) ∧
    (∀ c ∈ cr.clients, c.id ≠ a → c ∈ (cr.handleMsg L m.when m).state.clients) ∧
    roomStep L cr m = (cr.handleMsg L m.when m).state := by
  by_cases hemp : sanitizeNick L (String.mk (m.text.data.drop 6)) = ""
  · have hh := handleMsg_empty_nick_case cr L m.when m a hraw hcmd hlen hA hemp
    rw [hh]
    rw [if_pos hemp]
    refine ⟨rfl, rfl, rfl, sendToClient_map_nick _ _ _, sendToClient_map_id _ _ _,
      fun c hc hne => sendToClient_mem_of_ne _ _ hc hne, ?_⟩
    simp [roomStep, hh]
  · have huse : nickInUse cr.clients
        (sanitizeNick L (String.mk (m.text.data.drop 6))) = true := by
      rcases hbad with h | h
      · exact absurd h hemp
      · exact h
    have hh := handleMsg_inuse_nick_case cr L m.when m a hraw hcmd hlen hA hemp huse
    rw [hh]
    rw [if_neg hemp]
    refine ⟨rfl, rfl, rfl, sendToClient_map_nick _ _ _, sendToClient_map_id _ _ _,
      fun c hc hne => sendToClient_mem_of_ne _ _ hc hne, ?_⟩
    simp [roomStep, hh]

/-- C10.  Renaming to one's own current nickname is rejected: since
`nickInUse` scans all members including the requester, a `"/nick"` argument
that sanitizes to the requester's own (non-empty) nickname yields the
private "already in use" notice, empty broadcast strings, and no change to
the nickname set — a no-op self-rename is never silently accepted. -/
theorem c10_self_rename_rejected (L : TextLibs) (cr : chatRoom) (m : msg)
    (a : Nat) (c : client)
    (hraw : m.raw = "") (hcmd : m.text.data.take 6 = "/nick ".data)
    (hlen : 6 < m.text.data.length) (hA : m.authorId = some a)
    (hc : c ∈ cr.clients)
    (hself : sanitizeNick L (String.mk (m.text.data.drop 6)) = c.nick)
    (hnne : c.nick ≠ "") :
    (cr.handleMsg L m.when m).notices =
      [(a, createSpecialMsg m.when "That nickname is already in use" "error")] ∧
    (cr.handleMsg L m.when m).authorMsg = "" ∧
    (cr.handleMsg L m.when m).chatMsg = "" ∧
    (cr.handleMsg L m.when m).state.clients.map (·.nick) = cr.clients.map (·.nick) ∧
    roomStep L cr m = (cr.handleMsg L m.when m).state := by
  have huse : nickInUse cr.clients
      (sanitizeNick L (String.mk (m.text.data.drop 6))) = true := by
    rw [hself]
    exact nickInUse_true_of_mem hc
  have hne : sanitizeNick L (String.mk (m.text.data.drop 6)) ≠ "" := by
    rw [hself]
    exact hnne
  have hh := handleMsg_inuse_nick_case cr L m.when m a hraw hcmd hlen hA hne huse
  rw [hh]
  refine ⟨rfl, rfl, rfl, sendToClient_map_nick _ _ _, ?_⟩
  simp [roomStep, hh]

/-- C5.  Silent drop of empty messages: a non-command user text whose content
renders to the empty string produces no broadcast strings, no private
notice, `createChatMsg` returns two empty strings, and the pipeline skips the
broadcast so every member's queue is untouched. -/
theorem c5_empty_message_dropped (L : TextLibs) (cr : chatRoom) (m : msg)
    (hraw : m.raw = "")
    (hcmd : ¬ (m.text.data.take 6 = "/nick ".data ∧ 6 < m.text.data.length))
    (hempty : renderMsgText L m.text = "") :
    (cr.handleMsg L m.when m).authorMsg = "" ∧
    (cr.handleMsg L m.when m).chatMsg = "" ∧
    (cr.handleMsg L m.when m).notices = [] ∧
    createChatMsg L m = ("", "") ∧
    (roomStep L cr m).clients = cr.clients := by
  have hcc : createChatMsg L m = ("", "") := by
    unfold createChatMsg
    rw [hempty]
    rfl
  have hh : cr.handleMsg L m.when m =
      ⟨{ cr with whenLastMsg := m.when }, "", "", []⟩ := by
    unfold chatRoom.handleMsg
    rw [if_neg (by simp [hraw]), if_neg hcmd]
    dsimp only
    rw [hcc]
  rw [hh]
  refine ⟨rfl, rfl, rfl, hcc, ?_⟩
  simp [roomStep, hh]

/-- C6, counterexample to the claim as stated: a one-space message in `wRoom`
normalizes to empty content and is dropped (no broadcast string), yet
`whenLastMsg` changes from 0 to the message's timestamp 5 — the claim that a
dropped-empty message leaves `whenLastMsg` unchanged is false on the code. -/
theorem c6_counterexample :
    (wRoom.handleMsg asciiLibs 5 wMsgBlank).chatMsg = "" ∧
    (wRoom.handleMsg asciiLibs 5 wMsgBlank).authorMsg = "" ∧
    wRoom.whenLastMsg = 0 ∧
    (wRoom.handleMsg asciiLibs 5 wMsgBlank).state.whenLastMsg ≠ wRoom.whenLastMsg := by
  decide

/-- C6, amended.  `whenLastMsg` is set to the message's timestamp for every
regular (non-pre-rendered, non-`/nick`-command) user text message — including
messages whose content normalizes to empty and which are therefore dropped —
while pre-rendered messages and all `/nick` commands (rejected or accepted)
leave it unchanged. -/
theorem c6_lastActivity_amended (L : TextLibs) (cr : chatRoom) (m : msg) :
    (m.raw ≠ "" → (cr.handleMsg L m.when m).state.whenLastMsg = cr.whenLastMsg) ∧
    (m.raw = "" → m.text.data.take 6 = "/nick ".data ∧ 6 < m.text.data.length →
      (cr.handleMsg L m.when m).state.whenLastMsg = cr.whenLastMsg) ∧
    (m.raw = "" → ¬ (m.text.data.take 6 = "/nick ".data ∧ 6 < m.text.data.length) →
      (cr.handleMsg L m.when m).state.whenLastMsg = m.when) := by
  refine ⟨?_, ?_, ?_⟩
  · intro h
    unfold chatRoom.handleMsg
    rw [if_pos h]
  · intro h1 h2
    unfold chatRoom.handleMsg
    rw [if_neg (by simp [h1]), if_pos h2]
    dsimp only
    split
    · cases hA : m.authorId <;> simp [privateNotice, hA]
    · split
      · cases hA : m.authorId <;> simp [privateNotice, hA]
      · cases hA : m.authorId <;> simp [hA]
  · intro h1 h2
    unfold chatRoom.handleMsg
    rw [if_neg (by simp [h1]), if_neg h2]

/-- C8.  Grapheme-based truncation: `maxMsgTextLen = 512` exceeds
`maxNickLen = 30`; `renderMsgText` escapes and linkifies exactly the join of
the first 512 grapheme clusters of the trimmed text; at most 512 clusters are
kept; and — whenever the segmentation partitions the trimmed text — the kept
prefix together with the joined dropped clusters reassembles the trimmed
text, so truncation happens only at cluster boundaries and each multi-byte or
multi-codepoint cluster is kept whole (neither bytes nor code points are the
truncation unit). -/
theorem c8_grapheme_truncation (L : TextLibs) (text : String)
    (hpart : String.join (L.graphemes (trimSpace text)) = trimSpace text) :
    maxMsgTextLen = 512 ∧ maxNickLen = 30 ∧ maxNickLen < maxMsgTextLen ∧
    renderMsgText L text =
      L.linkify (htmlEscapeString
        (String.join ((L.graphemes (trimSpace text)).take maxMsgTextLen))) ∧
    ((L.graphemes (trimSpace text)).take maxMsgTextLen).length ≤ maxMsgTextLen ∧
    String.join ((L.graphemes (trimSpace text)).take maxMsgTextLen) ++
      String.join ((L.graphemes (trimSpace text)).drop maxMsgTextLen) =
      trimSpace text := by
  refine ⟨rfl, rfl, by decide, rfl, ?_, ?_⟩
  · rw [List.length_take]
    exact Nat.min_le_left _ _
  · rw [join_take_drop, hpart]

/-! ## Witnesses -/

theorem c2_witness :
    (wServer.removeClient "1.2.3.4" wClientA 9).1.lookupRoom "1.2.3.4" = none ∧
    (wServer.removeClient "1.2.3.4" wClientA 9).2 = true ∧
    "1.2.3.4" ∉ ((wServer.removeClient "1.2.3.4" wClientA 9).1.stats).map (·.1) :=
  c2_empty_room_teardown wServer "1.2.3.4" wClientA 9 wRoomSingle (by decide) (by decide)

theorem c3_witness :
    wClientA.sendText "hello" = ({ wClientA with outgoing := ["hello"] }, false) ∧
    wClientFull.sendText "hello" = (wClientFull, true) ∧
    { wClientA with outgoing := ["hello"] } ∈
      (wRoom.broadcast (some 2) "a" "hello").clients := by
  refine ⟨?_, ?_, ?_⟩
  · exact (c3_nonblocking_delivery wClientA "hello" wRoom (some 2) "a" "hello").2.1
      (by decide)
  · exact (c3_nonblocking_delivery wClientFull "hello" wRoom (some 2) "a" "hello").2.2.1
      (by decide)
  · exact (c3_nonblocking_delivery wClientA "hello" wRoom (some 2) "a" "hello").2.2.2.2
      (by decide) (by decide) (by decide)

theorem c4_witness :
    (wRoom.handleMsg asciiLibs 5 wMsgNickEmpty).notices =
      [(1, createSpecialMsg 5 "Nickname cannot be empty" "error")] ∧
    (wRoom.handleMsg asciiLibs 5 wMsgNickEmpty).authorMsg = "" ∧
    (wRoom.handleMsg asciiLibs 5 wMsgNickEmpty).chatMsg = "" ∧
    (wRoom.handleMsg asciiLibs 5 wMsgNickEmpty).state.clients.map (·.nick) =
      wRoom.clients.map (·.nick) := by
  have h := c4_rejected_rename_private asciiLibs wRoom wMsgNickEmpty 1
    (by decide) (by decide) (by decide) (by decide) (Or.inl (by decide))
  exact ⟨h.1, h.2.1, h.2.2.1, h.2.2.2.1⟩

theorem c5_witness :
    (wRoom.handleMsg asciiLibs 5 wMsgBlank).authorMsg = "" ∧
    (wRoom.handleMsg asciiLibs 5 wMsgBlank).chatMsg = "" ∧
    (wRoom.handleMsg asciiLibs 5 wMsgBlank).notices = [] ∧
    createChatMsg asciiLibs wMsgBlank = ("", "") ∧
    (roomStep asciiLibs wRoom wMsgBlank).clients = wRoom.clients :=
  c5_empty_message_dropped asciiLibs wRoom wMsgBlank (by decide) (by decide) (by decide)

theorem c6_witness :
    (wRoom.handleMsg asciiLibs wMsgHello.when wMsgHello).state.whenLastMsg =
      wMsgHello.when :=
  (c6_lastActivity_amended asciiLibs wRoom wMsgHello).2.2 (by decide) (by decide)

theorem c8_witness :
    maxMsgTextLen = 512 ∧ maxNickLen = 30 ∧ maxNickLen < maxMsgTextLen ∧
    renderMsgText asciiLibs wMsg1000 =
      asciiLibs.linkify (htmlEscapeString
        (String.join ((asciiLibs.graphemes (trimSpace wMsg1000)).take maxMsgTextLen))) ∧
    ((asciiLibs.graphemes (trimSpace wMsg1000)).take maxMsgTextLen).length ≤ maxMsgTextLen ∧
    String.join ((asciiLibs.graphemes (trimSpace wMsg1000)).take maxMsgTextLen) ++
      String.join ((asciiLibs.graphemes (trimSpace wMsg1000)).drop maxMsgTextLen) =
      trimSpace wMsg1000 :=
  c8_grapheme_truncation asciiLibs wMsg1000 (join_singletons (trimSpace wMsg1000))

theorem c9_witness :
    ∃ j, 2 ≤ j ∧
      getNewNick wNickUsed (genNick 0 0) = genNick 0 0 ++ natToString j ∧
      nickInUse wNickUsed (genNick 0 0 ++ natToString j) = false ∧
      ∀ k, 2 ≤ k → k < j → nickInUse wNickUsed (genNick 0 0 ++ natToString k) = true :=
  (c9_nickname_allocation wNickUsed 0 0).2.2.2 (by decide)

theorem c10_witness :
    (wRoom.handleMsg asciiLibs 5 wMsgSelf).notices =
      [(1, createSpecialMsg 5 "That nickname is already in use" "error")] ∧
    (wRoom.handleMsg asciiLibs 5 wMsgSelf).authorMsg = "" ∧
    (wRoom.handleMsg asciiLibs 5 wMsgSelf).chatMsg = "" ∧
    (wRoom.handleMsg asciiLibs 5 wMsgSelf).state.clients.map (·.nick) =
      wRoom.clients.map (·.nick) := by
  have h := c10_self_rename_rejected asciiLibs wRoom wMsgSelf 1 wClientA
    (by decide) (by decide) (by decide) (by decide) (by decide) (by decide) (by decide)
  exact ⟨h.1, h.2.1, h.2.2.1, h.2.2.2.1⟩

end Neartalk
